import Mathlib

/-!
Verification of the ProSystem print agent's core logic (text layout,
receipt rendering, job concurrency, startup/port arbitration) against its
specification.  Definitions are shallow embeddings of the JavaScript
source in `src/printer-api.js` and the earlier revision
`src/unnamed/part_000`; JavaScript strings are modelled as `String` /
`List Char`, JavaScript numbers as `ℚ` with exact arithmetic, and the
stateful pieces (the in-flight job map, the startup retry loop) as
explicit state-passing functions.
-/

namespace PrintAgent

/-! ## JavaScript primitives -/

/-- A JavaScript string is truthy exactly when it is non-empty; `none`
models `undefined`/missing.  Used to embed `a || b` on strings. -/
def jsTruthy : Option String → Option String
  | none => none
  | some s => if s = "" then none else some s

/-- Embeds `x || d` for a string `x` and default `d`. -/
def jsOrStr (x : Option String) (d : String) : String :=
  (jsTruthy x).getD d

/-- Embeds `a || b` where both operands are possibly-missing strings. -/
def jsOrOpt (a b : Option String) : Option String :=
  match jsTruthy a with
  | some s => some s
  | none => jsTruthy b

/-- The decimal digit characters, as emitted by JavaScript number
formatting. -/
def digitChar : ℕ → Char
  | 0 => '0' | 1 => '1' | 2 => '2' | 3 => '3' | 4 => '4'
  | 5 => '5' | 6 => '6' | 7 => '7' | 8 => '8' | 9 => '9'
  | _ => '0'

/-- Fuel-driven digit expansion (structural recursion so that concrete
inputs evaluate in the kernel); `natDigits` supplies enough fuel. -/
def natDigitsGo (fuel : ℕ) (n : ℕ) : List Char :=
  match fuel with
  | 0 => []
  | fuel + 1 =>
    if n < 10 then [digitChar n]
    else natDigitsGo fuel (n / 10) ++ [digitChar (n % 10)]

/-- The decimal digits of a natural number, most significant first;
`String(n)` for a non-negative integer `n`. -/
def natDigits (n : ℕ) : List Char := natDigitsGo (n + 1) n

/-- `String(n)` for a natural number. -/
def jsNatToString (n : ℕ) : String := String.mk (natDigits n)

/-- Splits a character list at its first `'.'`: the part before it, and
(when a dot exists) the part after it. -/
def splitDotFirst : List Char → List Char × Option (List Char)
  | [] => ([], none)
  | c :: rest =>
    if c = '.' then ([], some rest)
    else
      let p := splitDotFirst rest
      (c :: p.1, p.2)

/-- `s.split('.', 2)` from the source: the field before the first dot and,
when present, the field between the first and second dots. -/
def jsSplitDotTwo (s : String) : String × Option String :=
  let p := splitDotFirst s.data
  (String.mk p.1, p.2.map (fun t => String.mk (splitDotFirst t).1))

/-- The value of a non-empty list of decimal digit characters. -/
def digitsVal (l : List Char) : ℕ :=
  l.foldl (fun a c => a * 10 + (c.toNat - '0'.toNat)) 0

/-- `parseInt(s)` restricted to decimal inputs: leading whitespace is
skipped, an optional sign is read, then the longest prefix of decimal
digits; `none` models `NaN` (no digits). -/
def jsParseIntDec (s : String) : Option Int :=
  let t := s.data.dropWhile Char.isWhitespace
  let sign : Bool × List Char :=
    match t with
    | '-' :: r => (true, r)
    | '+' :: r => (false, r)
    | _ => (false, t)
  let ds := sign.2.takeWhile Char.isDigit
  if ds = [] then none
  else some ((if sign.1 then -1 else 1) * (digitsVal ds : Int))

/-- Whether a character list ends in `".00"` (the regex `/\.00$/`). -/
def endsWithDot00 (l : List Char) : Bool :=
  l.reverse.take 3 == ['0', '0', '.']

/-- `s.replace(/\.00$/, '')`: strips one trailing `".00"`. -/
def stripDot00 (l : List Char) : List Char :=
  if endsWithDot00 l then (l.reverse.drop 3).reverse else l

/-! ## `CommaFormatted` (thousands grouping), from `src/printer-api.js`
lines 54–80 -/

/-- Fuel-driven version of the grouping loop of `CommaFormatted`
(structural recursion; `chunk3FromRight` supplies enough fuel). -/
def chunk3Go (fuel : ℕ) (l : List Char) : List (List Char) :=
  match fuel with
  | 0 => [l]
  | fuel + 1 =>
    if l.length > 3 then
      chunk3Go fuel (l.take (l.length - 3)) ++ [l.drop (l.length - 3)]
    else [l]

/-- The grouping loop of `CommaFormatted`: repeatedly peel the last three
characters into a group (`while (n.length > 3) { a.unshift(n.substr(n.length-3)); n = n.substr(0, n.length-3) }`),
then put the remainder in front. -/
def chunk3FromRight (l : List Char) : List (List Char) := chunk3Go l.length l

/-- The JavaScript array join `a.join(',')` on the grouped chunks. -/
def joinComma : List (List Char) → List Char
  | [] => []
  | [x] => x
  | x :: xs => x ++ ',' :: joinComma xs

/-- `CommaFormatted(amount)` from `src/printer-api.js` lines 54–80:
splits off the fractional part, parses the integer part with `parseInt`
(empty string on `NaN`), groups `|i|`'s digits in threes with commas,
re-attaches the fractional part, strips a trailing `".00"` and prepends
`'-'` when the parsed integer is negative. -/
def CommaFormatted (amount : String) : String :=
  let a := jsSplitDotTwo amount
  let d : String := a.2.getD ""
  match jsParseIntDec a.1 with
  | none => ""
  | some i =>
    let minus : String := if i < 0 then "-" else ""
    let n : List Char := natDigits i.natAbs
    let grouped : List Char := joinComma (chunk3FromRight n)
    let combined : List Char := if d.length < 1 then grouped else grouped ++ '.' :: d.data
    minus ++ String.mk (stripDot00 combined)

/-- Fuel-driven version of `commaGroupNum` (structural recursion;
`commaGroupNum` supplies enough fuel). -/
def commaGroupGo (fuel n : ℕ) : List Char :=
  match fuel with
  | 0 => natDigits n
  | fuel + 1 =>
    if n < 1000 then natDigits n
    else
      commaGroupGo fuel (n / 1000) ++
        ',' :: [digitChar (n / 100 % 10), digitChar (n / 10 % 10), digitChar (n % 10)]

/-- Numeric thousands grouping, written from the specification's words:
the digits of `n` with a comma before every (zero-padded) group of three
from the right. -/
def commaGroupNum (n : ℕ) : List Char := commaGroupGo n n

/-- `groupThousands` as the claim describes it, amended in one point: the
minus sign is kept exactly when the *parsed* integer part is negative (the
source drops the sign of `"-0"`, whose parsed value is zero).  Inserts
commas into the integer part, preserves the fractional part, strips a
trailing `".00"`. -/
def groupThousandsAmendedSpec (s : String) : String :=
  let p := jsSplitDotTwo s
  match jsParseIntDec p.1 with
  | none => ""
  | some i =>
    let grouped := commaGroupNum i.natAbs
    let frac : String := p.2.getD ""
    let body : List Char :=
      if frac = "" then grouped
      else if frac = "00" then grouped
      else grouped ++ '.' :: frac.data
    (if i < 0 then "-" else "") ++ String.mk body

/-! ## `CurrencyFormatted`, from `src/printer-api.js` lines 82–102 -/

/-- `Math.round(x)`: the nearest integer, halves toward positive infinity. -/
def jsMathRound (x : ℚ) : ℤ := ⌊x + 1 / 2⌋

/-- `String(n / 100)` for the JavaScript number `n / 100` with `n : ℕ` a
count of cents: JavaScript prints no decimal point for whole values and no
trailing fractional zeros. -/
def centsToDecimalString (n : ℕ) : String :=
  if n % 100 = 0 then jsNatToString (n / 100)
  else if n % 10 = 0 then
    jsNatToString (n / 100) ++ "." ++ String.mk [digitChar (n / 10 % 10)]
  else
    jsNatToString (n / 100) ++ "." ++
      String.mk [digitChar (n / 10 % 10), digitChar (n % 10)]

/-- `CurrencyFormatted(amount, currency)` from `src/printer-api.js` lines
82–102.  `parseFloat` is modelled by the `Option ℚ` argument (`none` is
`NaN`, which the source coerces to `0.00`); `Math.round` is applied first
for non-`"BDT"` currencies (`Math.round(NaN)` stays `NaN`);
`parseInt((i + .005) * 100)` truncates its non-negative argument, i.e.
floors it; the final `.replace(/\.00$/, '')` is applied when the rendered
number contains a dot. -/
def CurrencyFormatted (amount : Option ℚ) (currency : String := "BDT") : String :=
  let i0 : Option ℚ :=
    if currency ≠ "BDT" then amount.map (fun x => (jsMathRound x : ℚ)) else amount
  let i1 : ℚ := i0.getD 0
  let minus : String := if i1 < 0 then "-" else ""
  let a : ℚ := |i1|
  let cents : ℕ := (⌊(a + 5 / 1000) * 100⌋).toNat
  let s : String := centsToDecimalString cents
  let s2 : String := if '.' ∈ s.data then String.mk (stripDot00 s.data) else s
  minus ++ s2

/-- `formatCurrency` as the specification words it: parse to a float
(non-numeric coerces to `0.00`); for a currency other than `"BDT"` round to
the nearest integer first; round the value to two decimal places by
round-half-up on cents (`floor(abs(x)*100 + 0.5)`); render `cents / 100`
(which never shows a trailing `".00"`); reapply the sign. -/
def formatCurrencySpec (amount : Option ℚ) (currency : String := "BDT") : String :=
  let x0 : ℚ :=
    match amount with
    | none => 0
    | some v => if currency ≠ "BDT" then (jsMathRound v : ℚ) else v
  let cents : ℕ := (⌊|x0| * 100 + 1 / 2⌋).toNat
  (if x0 < 0 then "-" else "") ++ centsToDecimalString cents

/-! ## `createTwoColumnLine`, from `src/printer-api.js` lines 412–426 -/

/-- `createTwoColumnLine(leftText, rightText, totalWidth)`: when the two
texts and one space fit, pad between them; otherwise truncate the left
text with `substring(0, totalWidth - rightStr.length - 1)` (JavaScript
clamps a negative end index to `0`, modelled by `Int.toNat`) and insert a
single space. -/
def createTwoColumnLine (leftText rightText : String) (totalWidth : ℕ) : String :=
  let l := leftText.data
  let r := rightText.data
  let spaceNeeded : ℤ := (totalWidth : ℤ) - l.length - r.length
  if spaceNeeded < 1 then
    String.mk (l.take ((totalWidth : ℤ) - r.length - 1).toNat ++ ' ' :: r)
  else
    String.mk (l ++ List.replicate spaceNeeded.toNat ' ' ++ r)

/-! ## `wrapText`, from `src/printer-api.js` lines 431–458 -/

/-- JavaScript `trim()` on a character list: strips whitespace from both
ends. -/
def jsTrim (l : List Char) : List Char :=
  ((l.dropWhile Char.isWhitespace).reverse.dropWhile Char.isWhitespace).reverse

/-- `l.lastIndexOf(' ')`: the index of the last space, `none` for `-1`. -/
def lastSpaceIdx : List Char → Option ℕ
  | [] => none
  | c :: cs =>
    match lastSpaceIdx cs with
    | some i => some (i + 1)
    | none => if c = ' ' then some 0 else none

/-- The loop body's break point: the last space strictly inside the first
`maxWidth` characters when one exists at a positive index, else
`maxWidth`. -/
def breakPointOf (rem : List Char) (maxWidth : ℕ) : ℕ :=
  match lastSpaceIdx (rem.take maxWidth) with
  | some i => if 0 < i then i else maxWidth
  | none => maxWidth

/-- The `while` loop of `wrapText`, fuel-driven (each iteration shortens
the remainder when `1 ≤ maxWidth`, so `remaining.length + 1` fuel is
enough). -/
def wrapGo (fuel : ℕ) (rem : List Char) (maxWidth : ℕ) : List (List Char) :=
  match fuel with
  | 0 => []
  | fuel + 1 =>
    if rem.length = 0 then []
    else if rem.length ≤ maxWidth then [rem]
    else
      let bp := breakPointOf rem maxWidth
      jsTrim (rem.take bp) :: wrapGo fuel (jsTrim (rem.drop bp)) maxWidth

/-- `wrapText(text, maxWidth)` from `src/printer-api.js` lines 431–458:
returns `[text]` when it already fits, else runs the greedy break loop. -/
def wrapText (text : List Char) (maxWidth : ℕ) : List (List Char) :=
  if text.length ≤ maxWidth then [text]
  else wrapGo (text.length + 1) text maxWidth

/-! ## Job Concurrency Controller (`activePrintJobs`), from
`src/unnamed/part_000` lines 49–50, 561–574, 629–652, 688–700 and 794–807;
the HTML `/print` and thermal `/print-thermal` handlers run the same
admission and release steps against the shared map. -/

/-- `activePrintJobs.has(name)` on the association-list model of the
JavaScript `Map`. -/
def mapHas (m : List (String × String)) (k : String) : Bool :=
  (m.lookup k).isSome

/-- `activePrintJobs.delete(name)`. -/
def mapDelete (m : List (String × String)) (k : String) : List (String × String) :=
  m.filter (fun e => e.1 != k)

/-- `activePrintJobs.set(name, jobKey)`. -/
def mapSet (m : List (String × String)) (k v : String) : List (String × String) :=
  (k, v) :: mapDelete m k

/-- Outcome of the admission check at the top of a print handler. -/
inductive Admission
  | busy409
  | admitted (jobs : List (String × String))
deriving DecidableEq

/-- The admission step (`if (activePrintJobs.has(printerInfo.name)) return
res.status(409)... ; activePrintJobs.set(printerInfo.name, jobKey)`). -/
def admitPrintJob (jobs : List (String × String)) (printerName jobKey : String) :
    Admission :=
  if mapHas jobs printerName then .busy409
  else .admitted (mapSet jobs printerName jobKey)

/-- Job completion — the success path and the catch path both run
`if (jobKey && activePrintJobs.get(name) === jobKey) activePrintJobs.delete(name)`. -/
def finishPrintJob (jobs : List (String × String)) (printerName jobKey : String) :
    List (String × String) :=
  if jobs.lookup printerName = some jobKey then mapDelete jobs printerName else jobs

/-! ## Port arbitration and startup retries, from `src/printer-api.js`
lines 463–464 (`MAX_STARTUP_ATTEMPTS`), 595–627 (`ensurePortsAvailable`)
and 629–653 (`startApi` retry logic). -/

/-- What one startup attempt observes for one port: whether the bind probe
succeeds, whether the incumbent answers the graceful `/shutdown` request,
and whether the port is free on the rechecks after the graceful and the
forced-kill steps. -/
structure PortAttemptEnv where
  avail : Bool
  gracefulOk : Bool
  availAfterGraceful : Bool
  availAfterKill : Bool
deriving DecidableEq

/-- The per-port body of `ensurePortsAvailable`: probe; on failure try the
graceful shutdown and recheck; on failure force-kill and do a final
check. -/
def ensurePortAvailable (e : PortAttemptEnv) : Bool :=
  if e.avail then true
  else if e.gracefulOk && e.availAfterGraceful then true
  else e.availAfterKill

/-- `ensurePortsAvailable(ports)`: every contested port must end up
free. -/
def ensurePortsAvailable (ports : List PortAttemptEnv) : Bool :=
  ports.all ensurePortAvailable

/-- `const MAX_STARTUP_ATTEMPTS = 3`. -/
def MAX_STARTUP_ATTEMPTS : ℕ := 3

/-- The fixed back-off between attempts: `setTimeout(() => startApi(...), 3000)`. -/
def startupRetryDelayMs : ℕ := 3000

/-- How a startup run ends: listening, or the `api-startup-failed`
notification sent to the shell. -/
inductive StartupResult
  | running
  | startupFailureReported
deriving DecidableEq

/-- A run's observable trace: its outcome, how many port-acquisition
attempts ran, and the scheduled back-off delays between them. -/
structure StartupTrace where
  result : StartupResult
  probes : ℕ
  delaysMs : List ℕ
deriving DecidableEq

/-- The retry skeleton of `startApi`: `apiStartupAttempts` starts at 0;
a failed `ensurePortsAvailable` increments it and retries after the fixed
delay while `apiStartupAttempts < MAX_STARTUP_ATTEMPTS`, otherwise the
failure is reported to the shell.  The environment list supplies what each
attempt observes. -/
def startApiLoop : List (List PortAttemptEnv) → ℕ → StartupTrace
  | [], _ => ⟨.startupFailureReported, 0, []⟩
  | env :: rest, attempts =>
    if ensurePortsAvailable env then ⟨.running, 1, []⟩
    else if attempts + 1 < MAX_STARTUP_ATTEMPTS then
      let t := startApiLoop rest (attempts + 1)
      ⟨t.result, t.probes + 1, startupRetryDelayMs :: t.delaysMs⟩
    else ⟨.startupFailureReported, 1, []⟩

/-- `startApi(webContents)` with the counter at its initial value 0. -/
def startApi (envs : List (List PortAttemptEnv)) : StartupTrace :=
  startApiLoop envs 0

/-! ## `/print` handler response policy, from `src/printer-api.js`
lines 743–838. -/

/-- The `printer` field of a `/print` request body. -/
structure PrinterRef where
  name : Option String
deriving DecidableEq

/-- The validation `if (!printer || !printer.name)`: the printer object and
a truthy (non-empty) name are required. -/
def validPrinterName : Option PrinterRef → Option String
  | some ⟨some n⟩ => if n = "" then none else some n
  | _ => none

/-- How the HTML print flow ends after validation: the native print
callback reports success or failure, or the wrapping promise rejects (the
30-second timeout, or a thrown load/print error). -/
inductive PrintFlowEvent
  | callbackSuccess
  | callbackFailure (failureReason : String)
  | timedOut
  | renderError (message : String)
deriving DecidableEq

/-- The HTTP status the `/print` handler answers with: 400 for an invalid
printer configuration; 204 whenever the print promise resolves — and the
callback resolves it on BOTH outcomes (`resolve()` in the `!success`
branch, by design); 500 only when the promise rejects. -/
def printHandlerStatus (printerField : Option PrinterRef) (ev : PrintFlowEvent) : ℕ :=
  match validPrinterName printerField with
  | none => 400
  | some _ =>
    match ev with
    | .callbackSuccess => 204
    | .callbackFailure _ => 204
    | .timedOut => 500
    | .renderError _ => 500

/-! ## `getOptimalCharacterWidth`, from `src/printer-api.js` lines 358–389 -/

/-- The standard thermal paper widths, in the ascending order JavaScript
enumerates the integer-keyed `standardWidths` object. -/
def standardWidthsMM : List ℚ := [58, 76, 80, 82, 110]

/-- The character-count table for the standard widths
(58→32, 76→42, 80→48, 82→48, 110→64). -/
def standardWidthChars (w : ℚ) : ℤ :=
  if w = 58 then 32 else if w = 76 then 42 else if w = 80 then 48
  else if w = 82 then 48 else if w = 110 then 64 else 0

/-- The `reduce` that finds the closest standard width: a strictly closer
candidate replaces the accumulator, so ties keep the earlier (smaller)
width; the first key 58 seeds the fold. -/
def closestStandardWidth (widthMM : ℚ) : ℚ :=
  [(76 : ℚ), 80, 82, 110].foldl
    (fun prev curr => if |curr - widthMM| < |prev - widthMM| then curr else prev) 58

/-- `getOptimalCharacterWidth(widthMM)`: the table value of the closest
standard width when it lies within 2 mm, else
`Math.floor(((widthMM - 6) / 10) * 5.9)` clamped to `[32, 64]`
(`5.9 = 59/10` exactly in this rational embedding). -/
def getOptimalCharacterWidth (widthMM : ℚ) : ℤ :=
  let closest := closestStandardWidth widthMM
  if |closest - widthMM| ≤ 2 then standardWidthChars closest
  else
    let printableWidthMM := widthMM - 6
    let printableWidthCM := printableWidthMM / 10
    let calculatedChars : ℤ := ⌊printableWidthCM * (59 / 10)⌋
    max 32 (min 64 calculatedChars)

/-! ## Receipt rendering: `formatDate`, `formatTime` and
`buildThermalReceipt`, from `src/printer-api.js` lines 22–52 and 128–348 -/

/-- The local components a parsed JavaScript `Date` exposes through its
getters; `month` is already 1-based (the source prints `getMonth() + 1`). -/
structure JsDate where
  day : ℕ
  month : ℕ
  year : ℕ
  hour : ℕ
  minute : ℕ
deriving DecidableEq

/-- `String(x).padStart(2, '0')`. -/
def pad2 (n : ℕ) : String :=
  if (jsNatToString n).length < 2 then "0" ++ jsNatToString n else jsNatToString n

/-- `s.slice(-2)`: the last two characters (the whole string when
shorter). -/
def jsSliceLast2 (s : String) : String :=
  String.mk (s.data.reverse.take 2).reverse

/-- `formatDate(date)` from lines 22–29: `DD/MM/YY`, empty for a falsy
input. -/
def formatDate : Option JsDate → String
  | none => ""
  | some d =>
    pad2 d.day ++ "/" ++ pad2 d.month ++ "/" ++ jsSliceLast2 (jsNatToString d.year)

/-- `formatTime(time)` from lines 44–52: 12-hour `H:MM AM/PM`
(`hours % 12 || 12` maps 0 to 12), empty for a falsy input. -/
def formatTime : Option JsDate → String
  | none => ""
  | some d =>
    let h12 := d.hour % 12
    let hours := if h12 = 0 then 12 else h12
    let period := if 12 ≤ d.hour then "PM" else "AM"
    jsNatToString hours ++ ":" ++ pad2 d.minute ++ " " ++ period

/-- A labelled sub-record (`area`/`city`) of a customer address. -/
structure AreaRef where
  label : Option String
deriving DecidableEq

/-- One entry of `customer.addresses`. -/
structure CustomerAddress where
  addressLine : Option String
  area : Option AreaRef
  city : Option AreaRef
  zipcode : Option String
  country : Option String
deriving DecidableEq

/-- The optional customer block of the receipt model. -/
structure Customer where
  name : Option String
  phone : Option String
  email : Option String
  addresses : Option (List CustomerAddress)
deriving DecidableEq

/-- The organization's location fields used by the header. -/
structure LocationInfo where
  binNumber : Option String
  vatFormNumber : Option String
  address : Option String
  phone : Option String
  email : Option String
deriving DecidableEq

/-- `note.author`. -/
structure NoteAuthor where
  name : Option String
deriving DecidableEq

/-- One entry of `data.notes`. -/
structure ReceiptNote where
  text : String
  visibleOnInvoice : Bool
  createdAt : Option JsDate
  author : Option NoteAuthor
deriving DecidableEq

/-- One line item (`data.items[i]`). -/
structure LineItem where
  variantName : Option String
  itemName : Option String
  quantity : ℕ
  unitPrice : ℚ
deriving DecidableEq

/-- The receipt data model (`data`). -/
structure ReceiptData where
  displayName : Option String
  binNumber : Option String
  vatFormNumber : Option String
  customDomain : Option String
  location : Option LocationInfo
  invoiceNumber : String
  createdAt : Option JsDate
  customer : Option Customer
  items : List LineItem
  notes : Option (List ReceiptNote)
deriving DecidableEq

/-- One charge row of the totals model. -/
structure Charge where
  chargeLabel : String
  applicationMethod : String
  calculatedValue : ℚ
deriving DecidableEq

/-- One payment row of the totals model. -/
structure Payment where
  method : String
  amount : ℚ
  createdAt : Option JsDate
  user : Option String
deriving DecidableEq

/-- The precomputed totals model (`totals`); the pipeline only formats
it. -/
structure Totals where
  totalQuantity : ℕ
  subtotal : ℚ
  charges : List Charge
  grandTotal : ℚ
  payments : List Payment
  totalPaid : ℚ
  balanceDue : ℚ
deriving DecidableEq

/-- Column alignment of a `tableCustom` cell. -/
inductive TableAlign
  | left
  | center
  | right
deriving DecidableEq

/-- One `tableCustom` cell: text, alignment and width fraction. -/
structure TableCell where
  text : String
  align : TableAlign
  width : ℚ
deriving DecidableEq

/-- The printer command sink: one constructor per `node-thermal-printer`
primitive the source invokes. -/
inductive Cmd
  | println (s : String)
  | print (s : String)
  | newLine
  | drawLine
  | tableCustom (cells : List TableCell)
  | bold (b : Bool)
  | alignCenter
  | alignLeft
  | setTextQuadArea
  | setTextNormal
  | setTextSize (width height : ℕ)
  | invert (b : Bool)
  | setTypeFontB
  | setTypeFontA
  | cut
deriving DecidableEq

/-- `wrapText` on `String`s, as the rendering code calls it. -/
def wrapTextStr (s : String) (w : ℕ) : List String :=
  (wrapText s.data w).map String.mk

/-- Header block (lines 132–144): bold everywhere, centered, quad-size
organization name with a fallback, then back to normal text. -/
def headerCmds (d : ReceiptData) : List Cmd :=
  [Cmd.bold true, Cmd.alignCenter, Cmd.setTextQuadArea, Cmd.bold true,
   Cmd.println (jsOrStr d.displayName "Organization"), Cmd.invert false,
   Cmd.setTextNormal, Cmd.bold true, Cmd.setTextSize 0 0]

/-- BIN/VAT block (lines 147–152): printed only when a BIN number is
truthy at either level; the Mushak line needs a truthy VAT form number
too. -/
def binVatCmds (d : ReceiptData) : List Cmd :=
  match jsOrOpt (d.location.bind (·.binNumber)) d.binNumber with
  | none => []
  | some bin =>
    Cmd.println ("BIN: " ++ bin) ::
      (match jsOrOpt (d.location.bind (·.vatFormNumber)) d.vatFormNumber with
       | none => []
       | some vat => [Cmd.println ("Mushak - " ++ vat)])

/-- Address block (lines 155–158): word-wrapped to the character width. -/
def addressCmds (w : ℕ) (d : ReceiptData) : List Cmd :=
  match jsTruthy (d.location.bind (·.address)) with
  | none => []
  | some addr => (wrapTextStr addr w).map Cmd.println

/-- Contact line (lines 161–172): phone and/or email, joined with `", "`
only when both are present, then one line feed; omitted when neither is
present. -/
def contactCmds (d : ReceiptData) : List Cmd :=
  let phone := jsTruthy (d.location.bind (·.phone))
  let email := jsTruthy (d.location.bind (·.email))
  if phone.isSome || email.isSome then
    (match phone with
     | some p => [Cmd.print p] ++ (if email.isSome then [Cmd.print ", "] else [])
     | none => []) ++
    (match email with
     | some e => [Cmd.print e]
     | none => []) ++ [Cmd.newLine]
  else []

/-- Custom-domain line (lines 174–176). -/
def customDomainCmds (d : ReceiptData) : List Cmd :=
  match jsTruthy d.customDomain with
  | none => []
  | some s => [Cmd.println s]

/-- Invoice info block (lines 183–192): two two-column rows at full
width. -/
def invoiceCmds (w : ℕ) (d : ReceiptData) : List Cmd :=
  [Cmd.println (createTwoColumnLine ("INVOICE " ++ d.invoiceNumber)
     (formatDate d.createdAt) w),
   Cmd.println (createTwoColumnLine "" (formatTime d.createdAt) w)]

/-- The customer's composed address line (lines 203–216): the first listed
address only, up to five truthy parts joined with `", "`. -/
def customerAddressLine (c : Customer) : List Cmd :=
  match c.addresses with
  | some (addr :: _) =>
    let parts := [addr.addressLine, addr.area.bind (·.label), addr.city.bind (·.label),
      addr.zipcode, addr.country].filterMap jsTruthy
    let joined := String.intercalate ", " parts
    if joined = "" then [] else [Cmd.println ("Address: " ++ joined)]
  | _ => []

/-- Customer block (lines 195–217). -/
def customerCmds (d : ReceiptData) : List Cmd :=
  match d.customer with
  | none => []
  | some c =>
    [Cmd.drawLine, Cmd.println "CUSTOMER"] ++
    (match jsTruthy c.name with | some n => [Cmd.println n] | none => []) ++
    (match jsTruthy c.phone with | some p => [Cmd.println ("Phone: " ++ p)] | none => []) ++
    (match jsTruthy c.email with | some e => [Cmd.println ("Email: " ++ e)] | none => []) ++
    customerAddressLine c

/-- Items header (lines 220–227): the four-column layout
8% / 54% / 15% / 23%. -/
def itemsHeaderCmds : List Cmd :=
  [Cmd.drawLine,
   Cmd.tableCustom [⟨"Sl", .left, 8 / 100⟩, ⟨"Item", .left, 54 / 100⟩,
     ⟨"Qty", .center, 15 / 100⟩, ⟨"Price", .right, 23 / 100⟩],
   Cmd.drawLine]

/-- One item's rows (lines 230–257): the composed name is wrapped to 54%
of the width (`Math.floor(charWidth * 0.54)` is exactly `w * 54 / 100` on
integer widths); the first wrapped line carries serial, quantity and
price, later lines keep the other cells empty. -/
def itemRowCmds (w : ℕ) (index : ℕ) (item : LineItem) : List Cmd :=
  let itemName := String.intercalate " - "
    ([item.variantName, item.itemName].filterMap jsTruthy)
  let serialNum := jsNatToString (index + 1) ++ "."
  let itemColumnWidth := w * 54 / 100
  let wrappedLines := wrapTextStr itemName itemColumnWidth
  Cmd.tableCustom [⟨serialNum, .left, 8 / 100⟩, ⟨wrappedLines.headD "", .left, 54 / 100⟩,
    ⟨jsNatToString item.quantity, .center, 15 / 100⟩,
    ⟨CommaFormatted (CurrencyFormatted (some item.unitPrice) "BDT"), .right, 23 / 100⟩] ::
  (wrappedLines.drop 1).map (fun line =>
    Cmd.tableCustom [⟨"", .left, 8 / 100⟩, ⟨line, .left, 54 / 100⟩,
      ⟨"", .center, 15 / 100⟩, ⟨"", .right, 23 / 100⟩])

/-- All item rows, with 1-based serial numbers. -/
def itemsCmds (w : ℕ) (d : ReceiptData) : List Cmd :=
  d.items.enum.flatMap (fun p => itemRowCmds w p.1 p.2)

/-- One charge row (lines 268–275): the label gets `" (inc)"` for the
inclusive application method, the value is shown as a magnitude. -/
def chargeRowCmd (w : ℕ) (charge : Charge) : Cmd :=
  let inclusiveText := if charge.applicationMethod = "INCLUSIVE" then " (inc)" else ""
  Cmd.println (createTwoColumnLine (charge.chargeLabel ++ inclusiveText)
    (CommaFormatted (CurrencyFormatted (some |charge.calculatedValue|) "BDT")) w)

/-- Summary block (lines 260–282): separator, subtotal with the item
count, the charges, and the grand total. -/
def summaryCmds (w : ℕ) (t : Totals) : List Cmd :=
  [Cmd.drawLine,
   Cmd.println (createTwoColumnLine ("Subtotal (" ++ jsNatToString t.totalQuantity ++ ")")
     (CommaFormatted (CurrencyFormatted (some t.subtotal) "BDT")) w)] ++
  t.charges.map (chargeRowCmd w) ++
  [Cmd.println (createTwoColumnLine "TOTAL"
    (CommaFormatted (CurrencyFormatted (some t.grandTotal) "BDT")) w)]

/-- One payment's rows (lines 287–298): method/amount, plus an indented
date/time/user sub-line when a payment date exists (`payment.user ||
'Admin'`). -/
def paymentRowCmds (w : ℕ) (p : Payment) : List Cmd :=
  Cmd.println (createTwoColumnLine p.method
    (CommaFormatted (CurrencyFormatted (some p.amount) "BDT")) w) ::
  (match p.createdAt with
   | some dt =>
     [Cmd.println ("  " ++ formatDate (some dt) ++ ", " ++ formatTime (some dt) ++
       ", " ++ jsOrStr p.user "Admin")]
   | none => [])

/-- The dedicated `"PAID"` row (lines 302–308). -/
def paidRowCmd (w : ℕ) (t : Totals) : Cmd :=
  Cmd.println (createTwoColumnLine "PAID"
    (CommaFormatted (CurrencyFormatted (some t.totalPaid) "BDT")) w)

/-- The dedicated `"DUE"` row (lines 310–316). -/
def dueRowCmd (w : ℕ) (t : Totals) : Cmd :=
  Cmd.println (createTwoColumnLine "DUE"
    (CommaFormatted (CurrencyFormatted (some t.balanceDue) "BDT")) w)

/-- Payments section (lines 285–317): emitted only for a non-empty
payment list — separator, the payment rows, separator, then the `"PAID"`
row only when `totalPaid > 0` and the `"DUE"` row only when
`balanceDue > 0`. -/
def paymentsCmds (w : ℕ) (t : Totals) : List Cmd :=
  if 0 < t.payments.length then
    Cmd.drawLine :: (t.payments.flatMap (paymentRowCmds w) ++
      [Cmd.drawLine] ++
      (if 0 < t.totalPaid then [paidRowCmd w t] else []) ++
      (if 0 < t.balanceDue then [dueRowCmd w t] else []))
  else []

/-- One note's rows (lines 326–332). -/
def noteCmds (note : ReceiptNote) : List Cmd :=
  Cmd.println ("- " ++ note.text) ::
  (match note.createdAt with
   | some dt =>
     [Cmd.println ("  " ++ formatDate (some dt) ++ ", " ++ formatTime (some dt) ++
       ", " ++ jsOrStr (note.author.bind (·.name)) "System")]
   | none => [])

/-- Notes block (lines 320–333): only notes flagged visible on the
invoice. -/
def notesCmds (d : ReceiptData) : List Cmd :=
  let visibleNotes := (d.notes.getD []).filter (·.visibleOnInvoice)
  if 0 < visibleNotes.length then
    [Cmd.newLine, Cmd.drawLine, Cmd.println "Notes:"] ++
      visibleNotes.flatMap noteCmds
  else []

/-- Footer (lines 336–347). -/
def footerCmds : List Cmd :=
  [Cmd.newLine, Cmd.alignCenter, Cmd.setTextNormal, Cmd.setTypeFontB,
   Cmd.println "Powered by ProSystem", Cmd.setTypeFontA, Cmd.bold false, Cmd.cut]

/-- `buildThermalReceipt(printer, data, totals)` from lines 128–348: the
full ordered command sequence. -/
def buildThermalReceipt (charWidth : ℕ) (data : ReceiptData) (totals : Totals) :
    List Cmd :=
  headerCmds data ++ binVatCmds data ++ addressCmds charWidth data ++
    contactCmds data ++ customDomainCmds data ++ [Cmd.alignLeft, Cmd.drawLine] ++
    invoiceCmds charWidth data ++ customerCmds data ++ itemsHeaderCmds ++
    itemsCmds charWidth data ++ summaryCmds charWidth totals ++
    paymentsCmds charWidth totals ++ notesCmds data ++ footerCmds

/-! ## Lemmas about digit expansion and thousands grouping -/

theorem natDigitsGo_congr : ∀ (f₁ f₂ n : ℕ), n < f₁ → n < f₂ →
    natDigitsGo f₁ n = natDigitsGo f₂ n := by
  intro f₁
  induction f₁ with
  | zero => intro f₂ n h₁; omega
  | succ f ih =>
    intro f₂ n h₁ h₂
    cases f₂ with
    | zero => omega
    | succ g =>
      simp only [natDigitsGo]
      by_cases h : n < 10
      · simp [h]
      · have hd : n / 10 < n := Nat.div_lt_self (by omega) (by norm_num)
        simp only [h, if_false]
        rw [ih g (n / 10) (by omega) (by omega)]

theorem natDigits_lt10 (n : ℕ) (h : n < 10) : natDigits n = [digitChar n] := by
  simp [natDigits, natDigitsGo, h]

theorem natDigits_ge10 (n : ℕ) (h : 10 ≤ n) :
    natDigits n = natDigits (n / 10) ++ [digitChar (n % 10)] := by
  have hd : n / 10 < n := Nat.div_lt_self (by omega) (by norm_num)
  have e : natDigits n = if n < 10 then [digitChar n]
      else natDigitsGo n (n / 10) ++ [digitChar (n % 10)] := rfl
  rw [e, if_neg (by omega),
    natDigitsGo_congr n (n / 10 + 1) (n / 10) (by omega) (by omega)]
  rfl

theorem natDigits_ne_nil (n : ℕ) : natDigits n ≠ [] := by
  by_cases h : n < 10
  · rw [natDigits_lt10 n h]; simp
  · rw [natDigits_ge10 n (by omega)]; simp

theorem natDigits_length_le3 (n : ℕ) (h : n < 1000) : (natDigits n).length ≤ 3 := by
  by_cases h1 : n < 10
  · rw [natDigits_lt10 n h1]; simp
  · by_cases h2 : n < 100
    · rw [natDigits_ge10 n (by omega), natDigits_lt10 (n / 10) (by omega)]
      simp
    · rw [natDigits_ge10 n (by omega), natDigits_ge10 (n / 10) (by omega),
        natDigits_lt10 (n / 10 / 10) (by omega)]
      simp

theorem digitChar_ne_dot (m : ℕ) : digitChar m ≠ '.' := by
  unfold digitChar
  split <;> decide

theorem dot_not_mem_natDigits (n : ℕ) : '.' ∉ natDigits n := by
  have key : ∀ f m, '.' ∉ natDigitsGo f m := by
    intro f
    induction f with
    | zero => intro m; simp [natDigitsGo]
    | succ g ih =>
      intro m
      simp only [natDigitsGo]
      by_cases h : m < 10
      · simp only [h, if_true, List.mem_singleton]
        exact fun hc => digitChar_ne_dot m hc.symm
      · intro hc
        simp only [h, if_false, List.mem_append, List.mem_singleton] at hc
        rcases hc with hc | hc
        · exact ih (m / 10) hc
        · exact digitChar_ne_dot (m % 10) hc.symm
  exact key (n + 1) n

theorem dot_not_mem_commaGroupNum (n : ℕ) : '.' ∉ commaGroupNum n := by
  have key : ∀ f m, '.' ∉ commaGroupGo f m := by
    intro f
    induction f with
    | zero => intro m; simpa [commaGroupGo] using dot_not_mem_natDigits m
    | succ g ih =>
      intro m
      by_cases h : m < 1000
      · simpa [commaGroupGo, h] using dot_not_mem_natDigits m
      · intro hc
        simp only [commaGroupGo, h, if_false, List.mem_append, List.mem_cons,
          List.mem_singleton, List.not_mem_nil, or_false] at hc
        rcases hc with hc | hc | hc | hc | hc
        · exact ih (m / 1000) hc
        · exact absurd hc (by decide)
        · exact digitChar_ne_dot _ hc.symm
        · exact digitChar_ne_dot _ hc.symm
        · exact digitChar_ne_dot _ hc.symm
  exact key n n

theorem chunk3Go_congr : ∀ (f₁ f₂ : ℕ) (l : List Char),
    l.length ≤ f₁ + 3 → l.length ≤ f₂ + 3 → chunk3Go f₁ l = chunk3Go f₂ l := by
  intro f₁
  induction f₁ with
  | zero =>
    intro f₂ l h₁ h₂
    have : ¬ l.length > 3 := by omega
    cases f₂ <;> simp [chunk3Go, this]
  | succ f ih =>
    intro f₂ l h₁ h₂
    cases f₂ with
    | zero =>
      have : ¬ l.length > 3 := by omega
      simp [chunk3Go, this]
    | succ g =>
      simp only [chunk3Go]
      by_cases h : l.length > 3
      · simp only [h, if_true]
        rw [ih g (l.take (l.length - 3)) (by simp; omega) (by simp; omega)]
      · simp [h]

theorem chunk3FromRight_le3 (l : List Char) (h : l.length ≤ 3) :
    chunk3FromRight l = [l] := by
  unfold chunk3FromRight
  cases hl : l.length with
  | zero => simp [chunk3Go]
  | succ m => simp [chunk3Go, hl.symm ▸ h]; omega

theorem chunk3FromRight_gt3 (l : List Char) (h : l.length > 3) :
    chunk3FromRight l =
      chunk3FromRight (l.take (l.length - 3)) ++ [l.drop (l.length - 3)] := by
  obtain ⟨m, hm⟩ : ∃ m, l.length = m + 1 := ⟨l.length - 1, by omega⟩
  have e : chunk3Go l.length l = chunk3Go (m + 1) l := by rw [hm]
  unfold chunk3FromRight
  rw [e]
  show (if l.length > 3 then
      chunk3Go m (l.take (l.length - 3)) ++ [l.drop (l.length - 3)] else [l]) = _
  rw [if_pos h, chunk3Go_congr m ((l.take (l.length - 3)).length)
    (l.take (l.length - 3)) (by simp; omega) (by omega)]

theorem chunk3FromRight_ne_nil (l : List Char) : chunk3FromRight l ≠ [] := by
  by_cases h : l.length ≤ 3
  · rw [chunk3FromRight_le3 l h]; simp
  · rw [chunk3FromRight_gt3 l (by omega)]; simp

theorem chunk3_append3 (A : List Char) (a b c : Char) (h : A ≠ []) :
    chunk3FromRight (A ++ [a, b, c]) = chunk3FromRight A ++ [[a, b, c]] := by
  have hlen : (A ++ [a, b, c]).length = A.length + 3 := by simp
  have hgt : (A ++ [a, b, c]).length > 3 := by
    simp only [hlen]
    have := List.length_pos.2 h
    omega
  rw [chunk3FromRight_gt3 _ hgt]
  congr 1
  · congr 1
    rw [hlen]
    simp
  · rw [hlen]
    simp

theorem joinComma_append_singleton : ∀ (xs : List (List Char)) (b : List Char),
    xs ≠ [] → joinComma (xs ++ [b]) = joinComma xs ++ ',' :: b := by
  intro xs
  induction xs with
  | nil => intro b h; exact absurd rfl h
  | cons x t ih =>
    intro b _
    cases t with
    | nil => simp [joinComma]
    | cons y u =>
      have h1 : joinComma ((x :: y :: u) ++ [b]) =
          x ++ ',' :: joinComma ((y :: u) ++ [b]) := rfl
      have h2 : joinComma (x :: y :: u) = x ++ ',' :: joinComma (y :: u) := rfl
      rw [h1, h2, ih b (by simp)]
      simp

theorem commaGroupNum_lt1000 (n : ℕ) (h : n < 1000) : commaGroupNum n = natDigits n := by
  unfold commaGroupNum
  cases n with
  | zero => rfl
  | succ m => simp [commaGroupGo, h]

theorem commaGroupGo_congr : ∀ (f₁ f₂ n : ℕ),
    n ≤ f₁ * 1000 + 999 → n ≤ f₂ * 1000 + 999 → commaGroupGo f₁ n = commaGroupGo f₂ n := by
  intro f₁
  induction f₁ with
  | zero =>
    intro f₂ n h₁ h₂
    have hn : n < 1000 := by omega
    cases f₂ <;> simp [commaGroupGo, hn]
  | succ f ih =>
    intro f₂ n h₁ h₂
    cases f₂ with
    | zero =>
      have hn : n < 1000 := by omega
      simp [commaGroupGo, hn]
    | succ g =>
      simp only [commaGroupGo]
      by_cases h : n < 1000
      · simp [h]
      · simp only [h, if_false]
        have hd : n / 1000 < n := Nat.div_lt_self (by omega) (by norm_num)
        rw [ih g (n / 1000) (by omega) (by omega)]

theorem commaGroupNum_ge1000 (n : ℕ) (h : 1000 ≤ n) :
    commaGroupNum n = commaGroupNum (n / 1000) ++
      ',' :: [digitChar (n / 100 % 10), digitChar (n / 10 % 10), digitChar (n % 10)] := by
  obtain ⟨m, hm⟩ : ∃ m, n = m + 1 := ⟨n - 1, by omega⟩
  have e : commaGroupGo n n = commaGroupGo (m + 1) n := by rw [← hm]
  unfold commaGroupNum
  rw [e]
  show (if n < 1000 then natDigits n else commaGroupGo m (n / 1000) ++
    ',' :: [digitChar (n / 100 % 10), digitChar (n / 10 % 10), digitChar (n % 10)]) = _
  rw [if_neg (by omega),
    commaGroupGo_congr m (n / 1000) (n / 1000) (by omega) (by omega)]

theorem natDigits_split1000 (n : ℕ) (h : 1000 ≤ n) :
    natDigits n = natDigits (n / 1000) ++
      [digitChar (n / 100 % 10), digitChar (n / 10 % 10), digitChar (n % 10)] := by
  rw [natDigits_ge10 n (by omega), natDigits_ge10 (n / 10) (by omega),
    natDigits_ge10 (n / 10 / 10) (by omega),
    show n / 10 / 10 / 10 = n / 1000 by omega,
    show n / 10 / 10 % 10 = n / 100 % 10 by omega]
  simp

theorem joinComma_chunk3_natDigits (n : ℕ) :
    joinComma (chunk3FromRight (natDigits n)) = commaGroupNum n := by
  induction n using Nat.strong_induction_on with
  | _ n ih =>
    by_cases h : n < 1000
    · rw [chunk3FromRight_le3 (natDigits n) (natDigits_length_le3 n h),
        commaGroupNum_lt1000 n h]
      rfl
    · have hd : n / 1000 < n := Nat.div_lt_self (by omega) (by norm_num)
      rw [natDigits_split1000 n (by omega),
        chunk3_append3 _ _ _ _ (natDigits_ne_nil (n / 1000)),
        joinComma_append_singleton _ _ (chunk3FromRight_ne_nil _),
        ih (n / 1000) hd, commaGroupNum_ge1000 n (by omega)]

/-! ## Lemmas about the trailing `".00"` strip -/

theorem dot_mem_of_endsWithDot00 (l : List Char) (h : endsWithDot00 l = true) :
    '.' ∈ l := by
  have h3 : l.reverse.take 3 = ['0', '0', '.'] := by simpa [endsWithDot00] using h
  have hm : '.' ∈ l.reverse.take 3 := by rw [h3]; simp
  exact List.mem_reverse.1 (List.take_subset 3 l.reverse hm)

theorem stripDot00_of_dot_not_mem (l : List Char) (h : '.' ∉ l) :
    stripDot00 l = l := by
  have he : endsWithDot00 l = false := by
    rw [Bool.eq_false_iff]
    exact fun hc => h (dot_mem_of_endsWithDot00 l hc)
  simp [stripDot00, he]

theorem stripDot00_append_dot00 (g : List Char) :
    stripDot00 (g ++ ['.', '0', '0']) = g := by
  have he : endsWithDot00 (g ++ ['.', '0', '0']) = true := by
    simp [endsWithDot00, List.reverse_append]
  simp [stripDot00, he, List.reverse_append]

theorem endsWithDot00_frac (g d : List Char) (hd : '.' ∉ d) (hne : d ≠ [])
    (h00 : d ≠ ['0', '0']) : endsWithDot00 (g ++ '.' :: d) = false := by
  rw [Bool.eq_false_iff]
  intro hc
  have h3 : (g ++ '.' :: d).reverse.take 3 = ['0', '0', '.'] := by
    simpa [endsWithDot00] using hc
  rw [List.reverse_append, List.reverse_cons] at h3
  rcases hr : d.reverse with _ | ⟨x, t⟩
  · exact hne (by simpa using congrArg List.reverse hr)
  · rw [hr] at h3
    cases t with
    | nil =>
      simp only [List.cons_append, List.nil_append, List.take_succ_cons,
        List.cons.injEq] at h3
      exact absurd h3.2.1.symm (by decide)
    | cons y u =>
      simp only [List.cons_append, List.take_succ_cons, List.cons.injEq] at h3
      obtain ⟨hx, hy, hu⟩ := h3
      cases u with
      | nil =>
        have : d = ['0', '0'] := by
          have := congrArg List.reverse hr
          simpa [hx, hy] using this
        exact h00 this
      | cons z v =>
        simp only [List.cons_append, List.take_succ_cons, List.cons.injEq] at hu
        have hz : z = '.' := hu.1
        have : z ∈ d.reverse := by rw [hr]; simp
        exact hd (List.mem_reverse.1 (hz ▸ this))

theorem dot_not_mem_splitDotFirst : ∀ l : List Char, '.' ∉ (splitDotFirst l).1 := by
  intro l
  induction l with
  | nil => simp [splitDotFirst]
  | cons c rest ih =>
    by_cases h : c = '.'
    · simp [splitDotFirst, h]
    · intro hc
      simp only [splitDotFirst, h, if_false, List.mem_cons] at hc
      rcases hc with hc | hc
      · exact h hc.symm
      · exact ih hc

/-- The fractional field produced by `jsSplitDotTwo` never contains a dot. -/
theorem dot_not_mem_frac (s : String) :
    '.' ∉ ((jsSplitDotTwo s).2.getD "").data := by
  simp only [jsSplitDotTwo]
  cases hq : (splitDotFirst s.data).2 with
  | none => simp
  | some t => simpa using dot_not_mem_splitDotFirst t

/-- The source's `CommaFormatted` agrees everywhere with the specification's
description of `groupThousands`, amended only in the sign rule (signs follow
the parsed integer value). -/
theorem commaFormatted_eq_spec (s : String) :
    CommaFormatted s = groupThousandsAmendedSpec s := by
  have hdot : '.' ∉ ((jsSplitDotTwo s).2.getD "").data := dot_not_mem_frac s
  simp only [CommaFormatted, groupThousandsAmendedSpec]
  cases hp : jsParseIntDec (jsSplitDotTwo s).1 with
  | none => rfl
  | some i =>
    dsimp only []
    congr 1
    rw [joinComma_chunk3_natDigits]
    set d : String := (jsSplitDotTwo s).2.getD "" with hd
    by_cases h0 : d = ""
    · have hlen : d.length < 1 := by rw [h0]; decide
      rw [if_pos hlen, if_pos h0]
      exact congrArg String.mk
        (stripDot00_of_dot_not_mem _ (dot_not_mem_commaGroupNum i.natAbs))
    · have hlen : ¬ d.length < 1 := by
        have h1 : d.data ≠ [] := fun hc => h0 (String.ext hc)
        have h2 : 0 < d.data.length := List.length_pos.2 h1
        have h3 : d.length = d.data.length := rfl
        omega
      rw [if_neg hlen, if_neg h0]
      by_cases h00 : d = "00"
      · have hdata : d.data = ['0', '0'] := by rw [h00]
        rw [if_pos h00, hdata]
        exact congrArg String.mk (stripDot00_append_dot00 _)
      · have hdata : d.data ≠ ['0', '0'] := fun hc => h00 (String.ext hc)
        have hne : d.data ≠ [] := fun hc => h0 (String.ext hc)
        rw [if_neg h00]
        refine congrArg String.mk ?_
        simp [stripDot00, endsWithDot00_frac (commaGroupNum i.natAbs) d.data hdot hne hdata]

theorem endsWithDot00_append_last (l : List Char) (c : Char) (h : c ≠ '0') :
    endsWithDot00 (l ++ [c]) = false := by
  rw [Bool.eq_false_iff]
  intro hc
  have h3 : (l ++ [c]).reverse.take 3 = ['0', '0', '.'] := by
    simpa [endsWithDot00] using hc
  rw [List.reverse_append] at h3
  simp only [List.reverse_singleton, List.singleton_append, List.take_succ_cons,
    List.cons.injEq] at h3
  exact h h3.1

theorem digitChar_ne_zero (m : ℕ) (h1 : m ≠ 0) (h2 : m < 10) :
    digitChar m ≠ '0' := by
  interval_cases m <;> first | exact absurd rfl h1 | decide

theorem endsWithDot00_cents (n : ℕ) :
    endsWithDot00 (centsToDecimalString n).data = false := by
  unfold centsToDecimalString
  by_cases h1 : n % 100 = 0
  · rw [if_pos h1, Bool.eq_false_iff]
    intro hc
    exact dot_not_mem_natDigits (n / 100) (dot_mem_of_endsWithDot00 _ hc)
  · rw [if_neg h1]
    by_cases h2 : n % 10 = 0
    · rw [if_pos h2]
      have hm : n / 10 % 10 ≠ 0 := by omega
      have e : (jsNatToString (n / 100) ++ "." ++
          String.mk [digitChar (n / 10 % 10)]).data =
          (natDigits (n / 100) ++ ['.']) ++ [digitChar (n / 10 % 10)] := by
        simp [jsNatToString]
      rw [e]
      exact endsWithDot00_append_last _ _ (digitChar_ne_zero _ hm (by omega))
    · rw [if_neg h2]
      have hm : n % 10 ≠ 0 := h2
      have e : (jsNatToString (n / 100) ++ "." ++
          String.mk [digitChar (n / 10 % 10), digitChar (n % 10)]).data =
          (natDigits (n / 100) ++ '.' :: [digitChar (n / 10 % 10)]) ++
            [digitChar (n % 10)] := by
        simp [jsNatToString]
      rw [e]
      exact endsWithDot00_append_last _ _ (digitChar_ne_zero _ hm (by omega))

theorem strip_cents_id (n : ℕ) :
    (if '.' ∈ (centsToDecimalString n).data then
        String.mk (stripDot00 (centsToDecimalString n).data)
      else centsToDecimalString n) = centsToDecimalString n := by
  by_cases h : '.' ∈ (centsToDecimalString n).data
  · rw [if_pos h]
    rw [show stripDot00 (centsToDecimalString n).data = (centsToDecimalString n).data
      from by simp [stripDot00, endsWithDot00_cents n]]
  · rw [if_neg h]

/-- Both renderings of the cents value agree: stripping is a no-op and the
two rounding formulas are equal rationals. -/
theorem currencyCore (y : ℚ) :
    (if y < 0 then "-" else "") ++
      (if '.' ∈ (centsToDecimalString (⌊(|y| + 5 / 1000) * 100⌋).toNat).data then
        String.mk (stripDot00 (centsToDecimalString (⌊(|y| + 5 / 1000) * 100⌋).toNat).data)
      else centsToDecimalString (⌊(|y| + 5 / 1000) * 100⌋).toNat) =
    (if y < 0 then "-" else "") ++ centsToDecimalString (⌊|y| * 100 + 1 / 2⌋).toNat := by
  rw [strip_cents_id, show (|y| + 5 / 1000) * 100 = |y| * 100 + 1 / 2 from by ring]

/-- `CurrencyFormatted` agrees everywhere with the specification’s
description of `formatCurrency`. -/
theorem currencyFormatted_eq_spec (amount : Option ℚ) (currency : String) :
    CurrencyFormatted amount currency = formatCurrencySpec amount currency := by
  simp only [CurrencyFormatted, formatCurrencySpec]
  cases amount with
  | none =>
    have e : (if currency ≠ "BDT" then
        Option.map (fun x => (jsMathRound x : ℚ)) none else none) = (none : Option ℚ) := by
      by_cases hc : currency ≠ "BDT" <;> simp [hc]
    rw [e]
    exact currencyCore 0
  | some v =>
    have e : (if currency ≠ "BDT" then
        Option.map (fun x => (jsMathRound x : ℚ)) (some v) else some v) =
        some (if currency ≠ "BDT" then (jsMathRound v : ℚ) else v) := by
      by_cases hc : currency ≠ "BDT" <;> simp [hc]
    rw [e]
    exact currencyCore _

/-- Evaluation helper: `CurrencyFormatted` of a non-negative numeric amount
in the default currency, given its cents value. -/
theorem currencyFormatted_nonneg (v : ℚ) (c : ℕ) (hv : 0 ≤ v)
    (hc : ⌊(v + 5 / 1000) * 100⌋ = (c : ℤ)) :
    CurrencyFormatted (some v) "BDT" = centsToDecimalString c := by
  simp only [CurrencyFormatted]
  rw [if_neg (by decide : ¬ ("BDT" : String) ≠ "BDT")]
  simp only [Option.getD_some]
  rw [if_neg (not_lt.2 hv), abs_of_nonneg hv, hc, Int.toNat_natCast,
    strip_cents_id c]
  simp

/-- Evaluation helper: `CurrencyFormatted` of a negative numeric amount in
the default currency, given the cents value of its magnitude. -/
theorem currencyFormatted_neg (v : ℚ) (c : ℕ) (hv : v < 0)
    (hc : ⌊(-v + 5 / 1000) * 100⌋ = (c : ℤ)) :
    CurrencyFormatted (some v) "BDT" = "-" ++ centsToDecimalString c := by
  simp only [CurrencyFormatted]
  rw [if_neg (by decide : ¬ ("BDT" : String) ≠ "BDT")]
  simp only [Option.getD_some]
  rw [if_pos hv, abs_of_neg hv, hc, Int.toNat_natCast, strip_cents_id c]

/-- C5: `formatCurrency(amount, currency="BDT")` parses the amount to a
float; when the currency is not `"BDT"` it first rounds to the nearest
integer; it then rounds to 2 decimal places by round-half-up on cents
(`floor(abs(x)*100 + 0.5)/100`), strips a trailing `".00"`, and reapplies
the sign; non-numeric input coerces to `0.00`; in particular
`formatCurrency(10.004) = "10"`, `formatCurrency(10.5) = "10.5"` and
`formatCurrency(-3.1) = "-3.1"`. -/
theorem C5_formatCurrency_rounding :
    (∀ (amount : Option ℚ) (currency : String),
        CurrencyFormatted amount currency = formatCurrencySpec amount currency) ∧
      CurrencyFormatted (some (10.004 : ℚ)) "BDT" = "10" ∧
      CurrencyFormatted (some (10.5 : ℚ)) "BDT" = "10.5" ∧
      CurrencyFormatted (some (-3.1 : ℚ)) "BDT" = "-3.1" ∧
      CurrencyFormatted none "BDT" = "0" := by
  refine ⟨currencyFormatted_eq_spec, ?_, ?_, ?_, ?_⟩
  · rw [currencyFormatted_nonneg 10.004 1000 (by norm_num) (by norm_num)]
    decide
  · rw [currencyFormatted_nonneg 10.5 1050 (by norm_num) (by norm_num)]
    decide
  · rw [currencyFormatted_neg (-3.1) 310 (by norm_num) (by norm_num)]
    decide
  · simp only [CurrencyFormatted]
    rw [if_neg (by decide : ¬ ("BDT" : String) ≠ "BDT")]
    simp only [Option.getD_none]
    rw [if_neg (by norm_num : ¬ (0 : ℚ) < 0), abs_zero]
    rw [show ⌊((0 : ℚ) + 5 / 1000) * 100⌋ = ((0 : ℕ) : ℤ) from by norm_num]
    rw [Int.toNat_natCast, strip_cents_id 0]
    decide

/-- C6 counterexample: the claim says `groupThousands` preserves a leading
minus sign, but on `"-0.5"` the source drops it: the integer field `"-0"`
parses to zero, the negativity test fails, and the output is `"0.5"`. -/
theorem C6_groupThousands_counterexample :
    CommaFormatted "-0.5" = "0.5" ∧
      jsParseIntDec (jsSplitDotTwo "-0.5").1 = some 0 ∧
      ("0.5" : String) ≠ "-0.5" := by decide

/-- C6 (amended): `groupThousands` inserts comma thousands separators into
the integer part, preserves the fractional part, strips a trailing
`".00"`, returns the empty string when the integer part is not parseable,
and prepends a minus sign exactly when the *parsed* integer part is
negative (for an integer field of `"-0"` the sign is dropped); in
particular `groupThousands("1234567") = "1,234,567"`,
`groupThousands("1234567.00") = "1,234,567"` and
`groupThousands("abc") = ""`. -/
theorem C6_groupThousands_grouping :
    (∀ s : String, CommaFormatted s = groupThousandsAmendedSpec s) ∧
      CommaFormatted "1234567" = "1,234,567" ∧
      CommaFormatted "1234567.00" = "1,234,567" ∧
      CommaFormatted "abc" = "" :=
  ⟨commaFormatted_eq_spec, by decide, by decide, by decide⟩

theorem length_mk (l : List Char) : (String.mk l).length = l.length := rfl

theorem data_length (s : String) : s.data.length = s.length := rfl

/-- C3 counterexample: with a right text as wide as the whole line the
truncation branch still prepends one space, so the result has
`totalWidth + 1` characters, not `totalWidth`. -/
theorem C3_twoColumnLine_counterexample :
    createTwoColumnLine "x" "12345" 5 = " 12345" ∧
      (createTwoColumnLine "x" "12345" 5).length = 6 ∧ (6 : ℕ) ≠ 5 := by decide

/-- C3 (amended): whenever the right text is strictly shorter than the
line (`rightText.length < totalWidth` — the counterexample shows the exact
width is lost when `totalWidth ≤ rightText.length`), `createTwoColumnLine`
returns exactly `totalWidth` characters: left + spaces + right when both
fit, otherwise the left text truncated to `totalWidth - right.length - 1`
characters, one space, and the untruncated right text; in particular
`createTwoColumnLine("TOTAL", "1,234", 20)` is `"TOTAL"`, ten spaces and
`"1,234"`. -/
theorem C3_twoColumnLine_amended (leftText rightText : String) (totalWidth : ℕ)
    (h : rightText.length < totalWidth) :
    (createTwoColumnLine leftText rightText totalWidth).length = totalWidth ∧
    (leftText.length + rightText.length < totalWidth →
      createTwoColumnLine leftText rightText totalWidth =
        String.mk (leftText.data ++
          List.replicate (totalWidth - leftText.length - rightText.length) ' ' ++
          rightText.data)) ∧
    (totalWidth ≤ leftText.length + rightText.length →
      createTwoColumnLine leftText rightText totalWidth =
        String.mk (leftText.data.take (totalWidth - rightText.length - 1) ++
          ' ' :: rightText.data)) ∧
    createTwoColumnLine "TOTAL" "1,234" 20 = "TOTAL          1,234" := by
  have hl : leftText.data.length = leftText.length := rfl
  have hr : rightText.data.length = rightText.length := rfl
  refine ⟨?_, ?_, ?_, by decide⟩
  · unfold createTwoColumnLine
    by_cases hs : ((totalWidth : ℤ) - leftText.data.length - rightText.data.length) < 1
    · rw [if_pos hs, length_mk]
      simp only [List.length_append, List.length_cons, List.length_take]
      have he : ((totalWidth : ℤ) - rightText.data.length - 1).toNat =
          totalWidth - rightText.length - 1 := by omega
      rw [he]
      omega
    · rw [if_neg hs, length_mk]
      simp only [List.length_append, List.length_replicate]
      omega
  · intro hfit
    have hfit' : leftText.data.length + rightText.data.length < totalWidth := by
      rw [hl, hr]; exact hfit
    unfold createTwoColumnLine
    rw [if_neg (by omega : ¬ ((totalWidth : ℤ) - leftText.data.length -
      rightText.data.length) < 1)]
    have he : ((totalWidth : ℤ) - leftText.data.length - rightText.data.length).toNat
        = totalWidth - leftText.length - rightText.length := by
      rw [hl, hr]; omega
    rw [he]
  · intro hover
    have hover' : totalWidth ≤ leftText.data.length + rightText.data.length := by
      rw [hl, hr]; exact hover
    have h' : rightText.data.length < totalWidth := by rw [hr]; exact h
    unfold createTwoColumnLine
    rw [if_pos (by omega : ((totalWidth : ℤ) - leftText.data.length -
      rightText.data.length) < 1)]
    have he : ((totalWidth : ℤ) - rightText.data.length - 1).toNat
        = totalWidth - rightText.length - 1 := by
      rw [hr]; omega
    rw [he]

/-- C3 witness: the amended theorem applied to the claim's own example. -/
theorem C3_twoColumnLine_amended_witness :
    (createTwoColumnLine "TOTAL" "1,234" 20).length = 20 :=
  (C3_twoColumnLine_amended "TOTAL" "1,234" 20 (by decide)).1

/-! ### Lemmas about `wrapText` -/

theorem jsTrim_length_le (l : List Char) : (jsTrim l).length ≤ l.length := by
  unfold jsTrim
  have h1 : (l.dropWhile Char.isWhitespace).length ≤ l.length :=
    (List.dropWhile_sublist _).length_le
  have h2 : ((l.dropWhile Char.isWhitespace).reverse.dropWhile
      Char.isWhitespace).length ≤ (l.dropWhile Char.isWhitespace).reverse.length :=
    (List.dropWhile_sublist _).length_le
  simp only [List.length_reverse] at *
  omega

theorem filter_dropWhile_nonws (l : List Char) :
    (l.dropWhile Char.isWhitespace).filter (fun c => !c.isWhitespace) =
      l.filter (fun c => !c.isWhitespace) := by
  induction l with
  | nil => rfl
  | cons c cs ih =>
    by_cases h : c.isWhitespace
    · rw [List.dropWhile_cons_of_pos (by simpa using h)]
      rw [ih, List.filter_cons_of_neg (by simpa using h)]
    · rw [List.dropWhile_cons_of_neg (by simpa using h)]

theorem jsTrim_filter_nonws (l : List Char) :
    (jsTrim l).filter (fun c => !c.isWhitespace) =
      l.filter (fun c => !c.isWhitespace) := by
  unfold jsTrim
  rw [List.filter_reverse, filter_dropWhile_nonws, List.filter_reverse,
    List.reverse_reverse, filter_dropWhile_nonws]

theorem dropWhile_eq_self_of_no_match (p : Char → Bool) (l : List Char)
    (h : ∀ c ∈ l, ¬ p c) : l.dropWhile p = l := by
  cases l with
  | nil => rfl
  | cons c cs =>
    rw [List.dropWhile_cons_of_neg (by simpa using h c (List.mem_cons_self c cs))]

theorem jsTrim_of_no_ws (l : List Char) (h : ∀ c ∈ l, ¬ c.isWhitespace) :
    jsTrim l = l := by
  unfold jsTrim
  rw [dropWhile_eq_self_of_no_match _ _ h,
    dropWhile_eq_self_of_no_match _ _ (fun c hc => h c (List.mem_reverse.1 hc)),
    List.reverse_reverse]

theorem lastSpaceIdx_lt_length (l : List Char) (i : ℕ)
    (h : lastSpaceIdx l = some i) : i < l.length := by
  induction l generalizing i with
  | nil => simp [lastSpaceIdx] at h
  | cons c cs ih =>
    simp only [lastSpaceIdx] at h
    cases hr : lastSpaceIdx cs with
    | some j =>
      rw [hr] at h
      have := ih j hr
      simp only [Option.some.injEq] at h
      simp [← h]
      omega
    | none =>
      rw [hr] at h
      by_cases hc : c = ' '
      · simp [hc] at h
        simp [← h]
      · simp [hc] at h

theorem lastSpaceIdx_none_of_no_space (l : List Char) (h : ' ' ∉ l) :
    lastSpaceIdx l = none := by
  induction l with
  | nil => rfl
  | cons c cs ih =>
    have hcs : ' ' ∉ cs := fun hc => h (List.mem_cons_of_mem c hc)
    have hc0 : ¬ c = ' ' := fun hc => h (by rw [← hc]; exact List.mem_cons_self c cs)
    simp only [lastSpaceIdx, ih hcs]
    rw [if_neg hc0]

theorem breakPointOf_le (rem : List Char) (w : ℕ) : breakPointOf rem w ≤ w := by
  unfold breakPointOf
  cases h : lastSpaceIdx (rem.take w) with
  | none => simp
  | some i =>
    have := lastSpaceIdx_lt_length _ _ h
    rw [List.length_take] at this
    by_cases hp : 0 < i
    · simp only [hp, if_true]
      omega
    · simp [hp]

theorem breakPointOf_pos (rem : List Char) (w : ℕ) (hw : 1 ≤ w) :
    1 ≤ breakPointOf rem w := by
  unfold breakPointOf
  cases h : lastSpaceIdx (rem.take w) with
  | none => simpa using hw
  | some i =>
    by_cases hp : 0 < i
    · simp only [hp, if_true]
      omega
    · simp only [hp, if_false]
      exact hw

/-- Each loop iteration strictly shortens the remainder (the heart of
termination). -/
theorem wrapStep_decreases (rem : List Char) (w : ℕ) (hw : 1 ≤ w)
    (hlong : w < rem.length) :
    (jsTrim (rem.drop (breakPointOf rem w))).length < rem.length := by
  have h1 := jsTrim_length_le (rem.drop (breakPointOf rem w))
  have h2 : (rem.drop (breakPointOf rem w)).length =
      rem.length - breakPointOf rem w := by simp
  have h3 := breakPointOf_pos rem w hw
  have h4 := breakPointOf_le rem w
  omega

theorem wrapGo_congr : ∀ (f₁ f₂ : ℕ) (rem : List Char) (w : ℕ), 1 ≤ w →
    rem.length < f₁ → rem.length < f₂ → wrapGo f₁ rem w = wrapGo f₂ rem w := by
  intro f₁
  induction f₁ with
  | zero => intro f₂ rem w hw h₁; omega
  | succ f ih =>
    intro f₂ rem w hw h₁ h₂
    cases f₂ with
    | zero => omega
    | succ g =>
      simp only [wrapGo]
      by_cases h0 : rem.length = 0
      · simp [h0]
      · by_cases hle : rem.length ≤ w
        · simp [h0, hle]
        · simp only [h0, hle, if_false]
          have hd := wrapStep_decreases rem w hw (by omega)
          rw [ih g (jsTrim (rem.drop (breakPointOf rem w))) w hw
            (by omega) (by omega)]

theorem wrapGo_line_le : ∀ (f : ℕ) (rem : List Char) (w : ℕ), 1 ≤ w →
    rem.length < f → ∀ line ∈ wrapGo f rem w, line.length ≤ w := by
  intro f
  induction f with
  | zero => intro rem w hw h line hm; simp [wrapGo] at hm
  | succ g ih =>
    intro rem w hw h line hm
    simp only [wrapGo] at hm
    by_cases h0 : rem.length = 0
    · simp [h0] at hm
    · rw [if_neg h0] at hm
      by_cases hle : rem.length ≤ w
      · rw [if_pos hle] at hm
        rcases List.mem_singleton.1 hm with rfl
        exact hle
      · rw [if_neg hle] at hm
        rcases List.mem_cons.1 hm with hm | hm
        · subst hm
          have h1 := jsTrim_length_le (rem.take (breakPointOf rem w))
          have h2 : (rem.take (breakPointOf rem w)).length ≤ breakPointOf rem w := by
            simp
          have h3 := breakPointOf_le rem w
          omega
        · have hd := wrapStep_decreases rem w hw (by omega)
          exact ih (jsTrim (rem.drop (breakPointOf rem w))) w hw (by omega) line hm

theorem wrapGo_ne_nil (f : ℕ) (rem : List Char) (w : ℕ) (h0 : rem ≠ [])
    (hf : 0 < f) : wrapGo f rem w ≠ [] := by
  cases f with
  | zero => omega
  | succ g =>
    simp only [wrapGo]
    have hl : rem.length ≠ 0 := by simpa using h0
    rw [if_neg hl]
    by_cases hle : rem.length ≤ w
    · simp [hle]
    · simp [hle]

theorem wrapGo_filter_join : ∀ (f : ℕ) (rem : List Char) (w : ℕ), 1 ≤ w →
    rem.length < f →
    ((wrapGo f rem w).flatten).filter (fun c => !c.isWhitespace) =
      rem.filter (fun c => !c.isWhitespace) := by
  intro f
  induction f with
  | zero => intro rem w hw h; omega
  | succ g ih =>
    intro rem w hw h
    simp only [wrapGo]
    by_cases h0 : rem.length = 0
    · rw [if_pos h0]
      have he : rem = [] := List.length_eq_zero.1 h0
      subst he
      simp
    · rw [if_neg h0]
      by_cases hle : rem.length ≤ w
      · rw [if_pos hle]; simp
      · rw [if_neg hle]
        have hd := wrapStep_decreases rem w hw (by omega)
        simp only [List.flatten_cons]
        rw [List.filter_append, jsTrim_filter_nonws,
          ih (jsTrim (rem.drop (breakPointOf rem w))) w hw (by omega),
          jsTrim_filter_nonws, ← List.filter_append, List.take_append_drop]

theorem wrapGo_no_ws : ∀ (f : ℕ) (rem : List Char) (w : ℕ), 1 ≤ w →
    rem.length < f → (∀ c ∈ rem, ¬ c.isWhitespace) →
    (wrapGo f rem w).flatten = rem ∧
      ∀ line ∈ (wrapGo f rem w).dropLast, line.length = w := by
  intro f
  induction f with
  | zero => intro rem w hw h hws; omega
  | succ g ih =>
    intro rem w hw h hws
    simp only [wrapGo]
    by_cases h0 : rem.length = 0
    · rw [if_pos h0]
      have he : rem = [] := List.length_eq_zero.1 h0
      subst he
      simp
    · rw [if_neg h0]
      by_cases hle : rem.length ≤ w
      · rw [if_pos hle]
        exact ⟨by simp, by simp⟩
      · rw [if_neg hle]
        have hnos : ' ' ∉ rem.take w := by
          intro hc
          exact hws ' ' (List.mem_of_mem_take hc) (by decide)
        have hbp : breakPointOf rem w = w := by
          unfold breakPointOf
          rw [lastSpaceIdx_none_of_no_space _ hnos]
        rw [hbp]
        have htr1 : jsTrim (rem.take w) = rem.take w :=
          jsTrim_of_no_ws _ (fun c hc => hws c (List.mem_of_mem_take hc))
        have htr2 : jsTrim (rem.drop w) = rem.drop w :=
          jsTrim_of_no_ws _ (fun c hc => hws c (List.mem_of_mem_drop hc))
        rw [htr1, htr2]
        have hdl : (rem.drop w).length = rem.length - w := by simp
        have hd : (rem.drop w).length < g := by omega
        obtain ⟨ihj, ihl⟩ := ih (rem.drop w) w hw hd
          (fun c hc => hws c (List.mem_of_mem_drop hc))
        refine ⟨by rw [List.flatten_cons, ihj, List.take_append_drop], ?_⟩
        intro line hm
        have hne : wrapGo g (rem.drop w) w ≠ [] := by
          apply wrapGo_ne_nil
          · intro hc
            rw [hc] at hdl
            simp at hdl
            omega
          · omega
        rw [List.dropLast_cons_of_ne_nil hne] at hm
        rcases List.mem_cons.1 hm with rfl | hm
        · rw [List.length_take]; omega
        · exact ihl line hm

/-- C4 counterexample: `wrapText("abcd", 3)` slices the unbroken token into
`["abc", "d"]`; joining the lines with single spaces (and trimming) gives
`"abc d"`, which is not the single-space-normalized original `"abcd"`.
Moreover the "exactly maxWidth" exception clause also fails as stated: on
`" abcd"` the first emitted line comes from the no-usable-space-break
branch (the only space sits at index 0) yet trimming shortens it to 2
characters, not 3. -/
theorem C4_wrapText_counterexample :
    wrapText "abcd".data 3 = ["abc".data, "d".data] ∧
      List.intercalate [' '] (wrapText "abcd".data 3) = "abc d".data ∧
      jsTrim "abc d".data = "abc d".data ∧
      "abc d".data ≠ "abcd".data ∧
      wrapText " abcd".data 3 = ["ab".data, "cd".data] ∧
      ("ab".data).length ≠ 3 := by decide

/-- C4 (amended): for `maxWidth ≥ 1`, every line returned by `wrapText` has
length at most `maxWidth`; joining the lines preserves the non-whitespace
character sequence of the input exactly (reconstruction holds after
deleting whitespace from both sides — joining with single spaces does not
reconstruct inputs whose over-long tokens were sliced mid-word, as the
counterexample shows); and for a whitespace-free input the lines
concatenate back to the input exactly, with every line except the last
exactly `maxWidth` characters long. -/
theorem C4_wrapText_line_bounds (text : List Char) (maxWidth : ℕ)
    (hw : 1 ≤ maxWidth) :
    (∀ line ∈ wrapText text maxWidth, line.length ≤ maxWidth) ∧
    ((wrapText text maxWidth).flatten.filter (fun c => !c.isWhitespace) =
      text.filter (fun c => !c.isWhitespace)) ∧
    ((∀ c ∈ text, ¬ c.isWhitespace) →
      (wrapText text maxWidth).flatten = text ∧
      ∀ line ∈ (wrapText text maxWidth).dropLast, line.length = maxWidth) := by
  unfold wrapText
  by_cases h : text.length ≤ maxWidth
  · rw [if_pos h]
    refine ⟨?_, by simp, fun hws => ⟨by simp, by simp⟩⟩
    intro line hm
    rcases List.mem_singleton.1 hm with rfl
    exact h
  · rw [if_neg h]
    exact ⟨wrapGo_line_le _ _ _ hw (by omega),
      wrapGo_filter_join _ _ _ hw (by omega),
      fun hws => wrapGo_no_ws _ _ _ hw (by omega) hws⟩

/-- C4 witness: the amended theorem applied at `"ab cd"`, width 3. -/
theorem C4_wrapText_line_bounds_witness :
    (wrapText "ab cd".data 3).flatten.filter (fun c => !c.isWhitespace) =
      "ab cd".data.filter (fun c => !c.isWhitespace) :=
  (C4_wrapText_line_bounds "ab cd".data 3 (by decide)).2.1

/-- C10: for `maxWidth ≥ 1` the `wrapText` loop terminates: each iteration
strictly shortens the remainder (trimming after a space break removes at
least the break character; the no-space branch consumes `maxWidth ≥ 1`
characters), so `text.length + 1` iterations always suffice — adding any
extra fuel does not change the result. -/
theorem C10_wrapText_terminates (text : List Char) (maxWidth : ℕ)
    (hw : 1 ≤ maxWidth) :
    (maxWidth < text.length →
      (jsTrim (text.drop (breakPointOf text maxWidth))).length < text.length) ∧
    ∀ extra : ℕ, wrapGo (text.length + 1 + extra) text maxWidth =
      wrapGo (text.length + 1) text maxWidth := by
  refine ⟨wrapStep_decreases text maxWidth hw, fun extra => ?_⟩
  exact wrapGo_congr _ _ text maxWidth hw (by omega) (by omega)

/-- C10 witness: the termination theorem applied at `"hello there"`,
width 4, with 7 units of extra fuel. -/
theorem C10_wrapText_terminates_witness :
    wrapGo ("hello there".data.length + 1 + 7) "hello there".data 4 =
      wrapGo ("hello there".data.length + 1) "hello there".data 4 :=
  (C10_wrapText_terminates "hello there".data 4 (by decide)).2 7

theorem lookup_mapSet_self (m : List (String × String)) (k v : String) :
    (mapSet m k v).lookup k = some v := by
  simp [mapSet, List.lookup]

theorem lookup_mapDelete_self (m : List (String × String)) (k : String) :
    (mapDelete m k).lookup k = none := by
  induction m with
  | nil => rfl
  | cons e t ih =>
    by_cases h : e.1 = k
    · have : (e.1 != k) = false := by simp [h]
      simp only [mapDelete, List.filter_cons, this, if_false]
      exact ih
    · have hne : (e.1 != k) = true := by simp [h]
      simp only [mapDelete, List.filter_cons, hne, if_true]
      have : (k == e.1) = false := by
        simp
        exact fun hc => h hc.symm
      simp only [List.lookup, this]
      exact ih

/-- C1: with the Job Concurrency Controller enabled (the `activePrintJobs`
revision of the handlers in `src/unnamed/part_000`), of two interleaved
admissions naming the same printer exactly one is admitted and the other
gets Busy (HTTP 409); and after the admitted job completes — the success
and the failure path both run the same token-checked delete — a subsequent
admission for that printer is admitted again. -/
theorem C1_per_printer_mutual_exclusion
    (m : List (String × String)) (name k₁ k₂ k₃ : String)
    (hfree : mapHas m name = false) :
    admitPrintJob m name k₁ = .admitted (mapSet m name k₁) ∧
    admitPrintJob (mapSet m name k₁) name k₂ = .busy409 ∧
    finishPrintJob (mapSet m name k₁) name k₁ = mapDelete (mapSet m name k₁) name ∧
    admitPrintJob (finishPrintJob (mapSet m name k₁) name k₁) name k₃ =
      .admitted (mapSet (finishPrintJob (mapSet m name k₁) name k₁) name k₃) := by
  refine ⟨?_, ?_, ?_, ?_⟩
  · unfold admitPrintJob
    rw [hfree]
    rfl
  · unfold admitPrintJob
    have h : mapHas (mapSet m name k₁) name = true := by
      simp [mapHas, lookup_mapSet_self]
    rw [h]
    rfl
  · unfold finishPrintJob
    rw [if_pos (lookup_mapSet_self m name k₁)]
  · unfold finishPrintJob admitPrintJob
    rw [if_pos (lookup_mapSet_self m name k₁)]
    have h : mapHas (mapDelete (mapSet m name k₁) name) name = false := by
      simp [mapHas, lookup_mapDelete_self]
    rw [h]
    rfl

/-- C1 witness: the exclusion theorem at a concrete map and printer. -/
theorem C1_per_printer_mutual_exclusion_witness :
    admitPrintJob (mapSet [] "PrinterA" "PrinterA-100") "PrinterA" "PrinterA-101" =
      .busy409 :=
  (C1_per_printer_mutual_exclusion [] "PrinterA" "PrinterA-100" "PrinterA-101"
    "PrinterA-102" (by decide)).2.1

theorem startApiLoop_probes_le : ∀ (envs : List (List PortAttemptEnv)) (a : ℕ),
    (startApiLoop envs a).probes ≤ max 1 (MAX_STARTUP_ATTEMPTS - a) := by
  intro envs
  induction envs with
  | nil => intro a; simp [startApiLoop]
  | cons env rest ih =>
    intro a
    simp only [startApiLoop]
    by_cases h1 : ensurePortsAvailable env
    · simp [h1]
    · rw [if_neg h1]
      by_cases h2 : a + 1 < MAX_STARTUP_ATTEMPTS
      · rw [if_pos h2]
        have hr := ih (a + 1)
        simp only [MAX_STARTUP_ATTEMPTS] at *
        omega
      · rw [if_neg h2]
        simp

/-- C8: the startup sequence attempts port acquisition at most
`MAX_STARTUP_ATTEMPTS = 3` times with the fixed 3000 ms back-off between
attempts, and when every attempt finds the ports unreclaimable it reports
the startup failure to the shell (exactly 3 probes, 2 delays) instead of
crashing or retrying forever. -/
theorem C8_startup_bounded_retries (envs : List (List PortAttemptEnv))
    (hall : ∀ env ∈ envs, ensurePortsAvailable env = false)
    (hlen : MAX_STARTUP_ATTEMPTS ≤ envs.length) :
    startApi envs = ⟨.startupFailureReported, MAX_STARTUP_ATTEMPTS,
      [startupRetryDelayMs, startupRetryDelayMs]⟩ ∧
    ∀ envs' : List (List PortAttemptEnv),
      (startApi envs').probes ≤ MAX_STARTUP_ATTEMPTS := by
  constructor
  · match envs, hlen with
    | e₁ :: e₂ :: e₃ :: rest, _ =>
      have h₁ := hall e₁ (by simp)
      have h₂ := hall e₂ (by simp)
      have h₃ := hall e₃ (by simp)
      simp [startApi, startApiLoop, h₁, h₂, h₃, MAX_STARTUP_ATTEMPTS]
  · intro envs'
    have h := startApiLoop_probes_le envs' 0
    simp only [MAX_STARTUP_ATTEMPTS] at *
    unfold startApi
    omega

/-- C8 witness: three attempts against a port that stays occupied and
cannot be freed. -/
theorem C8_startup_bounded_retries_witness :
    startApi [[⟨false, false, false, false⟩], [⟨false, false, false, false⟩],
        [⟨false, false, false, false⟩]] =
      ⟨.startupFailureReported, MAX_STARTUP_ATTEMPTS,
        [startupRetryDelayMs, startupRetryDelayMs]⟩ :=
  (C8_startup_bounded_retries _ (by decide) (by decide)).1

/-- C9: for every `/print` request that passes validation, a print failure
reported by the native callback still yields HTTP 204 — exactly the status
of a successful print — and never an error status. -/
theorem C9_print_callback_failure_is_success (printerField : Option PrinterRef)
    (name msg : String) (hvalid : validPrinterName printerField = some name) :
    printHandlerStatus printerField (.callbackFailure msg) = 204 ∧
    printHandlerStatus printerField (.callbackFailure msg) =
      printHandlerStatus printerField .callbackSuccess ∧
    printHandlerStatus printerField (.callbackFailure msg) ≠ 500 := by
  simp [printHandlerStatus, hvalid]

/-- C9 witness: a named printer with a callback-reported failure. -/
theorem C9_print_callback_failure_is_success_witness :
    printHandlerStatus (some ⟨some "HP-Thermal"⟩)
      (.callbackFailure "printer offline") = 204 :=
  (C9_print_callback_failure_is_success (some ⟨some "HP-Thermal"⟩) "HP-Thermal"
    "printer offline" (by decide)).1

theorem closest_step_le_left (w p c : ℚ) :
    |(if |c - w| < |p - w| then c else p) - w| ≤ |p - w| := by
  split
  · next h => exact le_of_lt h
  · exact le_refl _

theorem closest_step_le_right (w p c : ℚ) :
    |(if |c - w| < |p - w| then c else p) - w| ≤ |c - w| := by
  split
  · exact le_refl _
  · next h => exact le_of_not_lt h

theorem closest_step_mem (w p c : ℚ) :
    (if |c - w| < |p - w| then c else p) = c ∨
      (if |c - w| < |p - w| then c else p) = p := by
  split
  · exact Or.inl rfl
  · exact Or.inr rfl

theorem foldl_closest_spec (w : ℚ) : ∀ (l : List ℚ) (init : ℚ),
    (l.foldl (fun prev curr => if |curr - w| < |prev - w| then curr else prev) init
        = init ∨
      l.foldl (fun prev curr => if |curr - w| < |prev - w| then curr else prev) init
        ∈ l) ∧
    |l.foldl (fun prev curr => if |curr - w| < |prev - w| then curr else prev) init
        - w| ≤ |init - w| ∧
    ∀ m ∈ l,
      |l.foldl (fun prev curr => if |curr - w| < |prev - w| then curr else prev) init
        - w| ≤ |m - w| := by
  intro l
  induction l with
  | nil =>
    intro init
    exact ⟨Or.inl rfl, le_refl _, by simp⟩
  | cons c t ih =>
    intro init
    rw [List.foldl_cons]
    obtain ⟨ihm, ihb, ihall⟩ := ih (if |c - w| < |init - w| then c else init)
    refine ⟨?_, ?_, ?_⟩
    · rcases ihm with h | h
      · rcases closest_step_mem w init c with hc | hi
        · rw [h, hc]; exact Or.inr (List.mem_cons_self c t)
        · rw [h, hi]; exact Or.inl rfl
      · exact Or.inr (List.mem_cons_of_mem c h)
    · exact le_trans ihb (closest_step_le_left w init c)
    · intro m hm
      rcases List.mem_cons.1 hm with rfl | hm
      · exact le_trans ihb (closest_step_le_right w init m)
      · exact ihall m hm

/-- C7: for every paper width, `getOptimalCharacterWidth` returns the
table value of a nearest standard width (the fold's pick minimizes the
distance over the table) whenever that nearest width lies within 2 mm,
and otherwise `floor(((widthMM - 6) / 10) * 5.9)` clamped to `[32, 64]`;
in particular 80 ↦ 48, 58 ↦ 32, and 100 ↦ the dynamically computed 55,
which lies within `[32, 64]`. -/
theorem C7_resolveCharacterWidth :
    (∀ widthMM : ℚ, ∃ m ∈ standardWidthsMM,
      (∀ m' ∈ standardWidthsMM, |m - widthMM| ≤ |m' - widthMM|) ∧
      getOptimalCharacterWidth widthMM =
        (if |m - widthMM| ≤ 2 then standardWidthChars m
         else max 32 (min 64 ⌊(widthMM - 6) / 10 * (59 / 10)⌋)) ∧
      32 ≤ max 32 (min 64 ⌊(widthMM - 6) / 10 * (59 / 10)⌋) ∧
      max 32 (min 64 ⌊(widthMM - 6) / 10 * (59 / 10)⌋) ≤ 64) ∧
    getOptimalCharacterWidth 80 = 48 ∧
    getOptimalCharacterWidth 58 = 32 ∧
    getOptimalCharacterWidth 100 = 55 ∧
    (32 : ℤ) ≤ getOptimalCharacterWidth 100 ∧ getOptimalCharacterWidth 100 ≤ 64 := by
  refine ⟨?_, ?_, ?_, ?_, ?_, ?_⟩
  · intro widthMM
    obtain ⟨hm, hb, hall⟩ := foldl_closest_spec widthMM [(76 : ℚ), 80, 82, 110] 58
    refine ⟨closestStandardWidth widthMM, ?_, ?_, rfl, le_max_left _ _,
      max_le (by norm_num) (min_le_left _ _)⟩
    · rcases hm with h | h
      · rw [show ([(76 : ℚ), 80, 82, 110].foldl _ 58) = closestStandardWidth widthMM
          from rfl] at h
        rw [h]
        simp [standardWidthsMM]
      · have h58 : closestStandardWidth widthMM ∈ [(76 : ℚ), 80, 82, 110] := h
        show closestStandardWidth widthMM ∈ ((58 : ℚ) :: [76, 80, 82, 110])
        exact List.mem_cons_of_mem 58 h58
    · intro m' hm'
      simp only [standardWidthsMM, List.mem_cons] at hm'
      rcases hm' with rfl | hm'
      · exact hb
      · exact hall m' (by simpa using hm')
  · norm_num [getOptimalCharacterWidth, closestStandardWidth, standardWidthChars, abs]
  · norm_num [getOptimalCharacterWidth, closestStandardWidth, standardWidthChars, abs]
  · norm_num [getOptimalCharacterWidth, closestStandardWidth, standardWidthChars, abs,
      Int.floor_eq_iff]
  · norm_num [getOptimalCharacterWidth, closestStandardWidth, standardWidthChars, abs,
      Int.floor_eq_iff]
  · norm_num [getOptimalCharacterWidth, closestStandardWidth, standardWidthChars, abs,
      Int.floor_eq_iff]

/-- C2: in the rendered command sequence the payments section is a
contiguous block between the summary and the notes; it is emitted iff the
payments list is non-empty; within it the `"PAID"` row appears iff
`totalPaid > 0` and the `"DUE"` row iff `balanceDue > 0` (under the mild
hypotheses that no individual payment row happens to render to the same
byte-identical line as the dedicated `"PAID"`/`"DUE"` rows, and those two
rows differ from each other); in particular an empty payments list emits
no `"PAID"`/`"DUE"`/payment-separator rows, and `totalPaid = 0` omits the
`"PAID"` row even when payments exist. -/
theorem C2_payments_section (w : ℕ) (d : ReceiptData) (t : Totals)
    (hpaid : paidRowCmd w t ∉ t.payments.flatMap (paymentRowCmds w))
    (hdue : dueRowCmd w t ∉ t.payments.flatMap (paymentRowCmds w))
    (hpd : paidRowCmd w t ≠ dueRowCmd w t) :
    buildThermalReceipt w d t =
      (headerCmds d ++ binVatCmds d ++ addressCmds w d ++ contactCmds d ++
        customDomainCmds d ++ [Cmd.alignLeft, Cmd.drawLine] ++ invoiceCmds w d ++
        customerCmds d ++ itemsHeaderCmds ++ itemsCmds w d ++ summaryCmds w t) ++
      paymentsCmds w t ++ (notesCmds d ++ footerCmds) ∧
    (t.payments = [] → paymentsCmds w t = []) ∧
    (paymentsCmds w t = [] ↔ t.payments = []) ∧
    (paidRowCmd w t ∈ paymentsCmds w t ↔ (t.payments ≠ [] ∧ 0 < t.totalPaid)) ∧
    (dueRowCmd w t ∈ paymentsCmds w t ↔ (t.payments ≠ [] ∧ 0 < t.balanceDue)) := by
  have hsec : t.payments = [] → paymentsCmds w t = [] := by
    intro h
    simp [paymentsCmds, h]
  refine ⟨by simp [buildThermalReceipt, List.append_assoc], hsec, ?_, ?_, ?_⟩
  · constructor
    · intro h
      by_contra hne
      have hlen : 0 < t.payments.length := List.length_pos.2 hne
      simp [paymentsCmds, hlen] at h
    · exact hsec
  · constructor
    · intro hmem
      by_cases hne : t.payments = []
      · rw [hsec hne] at hmem
        simp at hmem
      · refine ⟨hne, ?_⟩
        by_contra hp
        have hlen : 0 < t.payments.length := List.length_pos.2 hne
        unfold paymentsCmds at hmem
        rw [if_pos hlen, if_neg hp] at hmem
        by_cases hb : 0 < t.balanceDue
        · rw [if_pos hb] at hmem
          simp only [List.mem_cons, List.mem_append, List.not_mem_nil, or_false,
            false_or, List.mem_singleton, List.nil_append, List.append_nil,
            or_assoc] at hmem
          rcases hmem with he | hm | he | he2
          · exact absurd he (by simp [paidRowCmd])
          · exact hpaid hm
          · exact absurd he (by simp [paidRowCmd])
          · exact hpd he2
        · rw [if_neg hb] at hmem
          simp only [List.mem_cons, List.mem_append, List.not_mem_nil, or_false,
            false_or, List.mem_singleton, List.nil_append, List.append_nil,
            or_assoc] at hmem
          rcases hmem with he | hm | he
          · exact absurd he (by simp [paidRowCmd])
          · exact hpaid hm
          · exact absurd he (by simp [paidRowCmd])
    · rintro ⟨hne, hp⟩
      have hlen : 0 < t.payments.length := List.length_pos.2 hne
      simp [paymentsCmds, hlen, hp]
  · constructor
    · intro hmem
      by_cases hne : t.payments = []
      · rw [hsec hne] at hmem
        simp at hmem
      · refine ⟨hne, ?_⟩
        by_contra hb
        have hlen : 0 < t.payments.length := List.length_pos.2 hne
        unfold paymentsCmds at hmem
        rw [if_pos hlen, if_neg hb] at hmem
        by_cases hq : 0 < t.totalPaid
        · rw [if_pos hq] at hmem
          simp only [List.mem_cons, List.mem_append, List.not_mem_nil, or_false,
            false_or, List.mem_singleton, List.nil_append, List.append_nil,
            or_assoc] at hmem
          rcases hmem with he | hm | he | he2
          · exact absurd he (by simp [dueRowCmd])
          · exact hdue hm
          · exact absurd he (by simp [dueRowCmd])
          · exact hpd he2.symm
        · rw [if_neg hq] at hmem
          simp only [List.mem_cons, List.mem_append, List.not_mem_nil, or_false,
            false_or, List.mem_singleton, List.nil_append, List.append_nil,
            or_assoc] at hmem
          rcases hmem with he | hm | he
          · exact absurd he (by simp [dueRowCmd])
          · exact hdue hm
          · exact absurd he (by simp [dueRowCmd])
    · rintro ⟨hne, hb⟩
      have hlen : 0 < t.payments.length := List.length_pos.2 hne
      simp [paymentsCmds, hlen, hb]

/-- C2 witness: one payment of 100, fully paid, nothing due — the `"PAID"`
row is emitted. -/
theorem C2_payments_section_witness :
    paidRowCmd 32 ⟨0, 0, [], 0, [⟨"Cash", 100, none, none⟩], 100, 0⟩ ∈
      paymentsCmds 32 ⟨0, 0, [], 0, [⟨"Cash", 100, none, none⟩], 100, 0⟩ := by
  have e100 : CommaFormatted (CurrencyFormatted (some (100 : ℚ)) "BDT") = "100" := by
    rw [currencyFormatted_nonneg 100 10000 (by norm_num) (by norm_num)]
    decide
  have e0 : CommaFormatted (CurrencyFormatted (some (0 : ℚ)) "BDT") = "0" := by
    rw [currencyFormatted_nonneg 0 0 (by norm_num) (by norm_num)]
    decide
  refine ((C2_payments_section 32
      ⟨none, none, none, none, none, "INV-1", none, none, [], none⟩
      ⟨0, 0, [], 0, [⟨"Cash", 100, none, none⟩], 100, 0⟩
      ?_ ?_ ?_).2.2.2.1).2 ⟨by simp, by norm_num⟩
  · intro hmem
    simp only [paymentRowCmds, paidRowCmd, e100, List.flatMap_cons,
      List.flatMap_nil, List.append_nil] at hmem
    revert hmem
    decide
  · intro hmem
    simp only [paymentRowCmds, dueRowCmd, e100, e0, List.flatMap_cons,
      List.flatMap_nil, List.append_nil] at hmem
    revert hmem
    decide
  · intro he
    simp only [paidRowCmd, dueRowCmd, e100, e0] at he
    revert he
    decide

end PrintAgent
